import Mathlib

/-!
Verification development for the svg-weathermap-placer repository.

The development shallowly embeds the numeric/algorithmic core of the
repository: the gradient color resolver (`gradients.ts`), the 2D geometry
helpers (`geometry.ts`), and the multi-stroke edge placement logic
(`makeAndPlaceEdge` / `placeEdges` in `index.ts`).

Modelling conventions:
* JavaScript numbers are modelled as exact rationals (`ℚ`); the angle
  computations of `placeEdges`, which use `Math.atan2` / `Math.cos` /
  `Math.sin` / `Math.PI`, are modelled over the reals (`ℝ`).
  IEEE-754 rounding is not modelled.
* `Number.parseInt(s, 16)` and `Number.parseFloat(s)` return NaN on
  fully non-numeric input; NaN is modelled as the junk value 0 in the
  corresponding definitions (each notes this in its doc string).  The
  theorems below never depend on that junk value: they carry explicit
  well-formedness hypotheses wherever parsing matters.
* DOM emission is out of scope; functions that in the source mutate the
  SVG tree are modelled as pure functions returning the geometric data
  they would emit.
-/

/-! ## Gradient data model (gradients.ts) -/

/-- A stop on a gradient, from the `GradientStop` interface in the source:
`position`, `strokeColor`, `fillColor`, `showLegendLabel`. -/
structure GradientStop where
  position : ℚ
  strokeColor : String
  fillColor : String
  showLegendLabel : Bool
deriving DecidableEq, Repr

/-- A gradient: a `type` string (the source annotates it `"steps"|"linear"`
but `gradientColorForValue` compares it against string literals and falls
through otherwise, so we keep it a `String`) and a list of stops. -/
structure Gradient where
  type : String
  stops : List GradientStop
deriving DecidableEq, Repr

/-- The color channel requested from a stop; the source passes the string
`"strokeColor"` or `"fillColor"` as `colorType: keyof GradientStop` and
accesses `stop[colorType]`. -/
inductive ColorType where
  | strokeColor
  | fillColor
deriving DecidableEq, Repr

/-- `stop[colorType]` for the two channels actually used by the source. -/
def GradientStop.colorOf (s : GradientStop) : ColorType → String
  | ColorType.strokeColor => s.strokeColor
  | ColorType.fillColor => s.fillColor

/-- `const emergencyColor: string = "pink";` -/
def emergencyColor : String := "pink"

/-- Value of a single hexadecimal digit character, `none` if the character
is not a hex digit. -/
def hexDigitVal (c : Char) : Option Nat :=
  if '0' ≤ c ∧ c ≤ '9' then some (c.toNat - '0'.toNat)
  else if 'a' ≤ c ∧ c ≤ 'f' then some (c.toNat - 'a'.toNat + 10)
  else if 'A' ≤ c ∧ c ≤ 'F' then some (c.toNat - 'A'.toNat + 10)
  else none

/-- `Number.parseInt(cs, 16)` on a short character string `cs`: parse the
longest prefix of hexadecimal digits.  The source yields NaN when that
prefix is empty; NaN is modelled as 0 here (no theorem depends on it:
the color-parsing theorems all assume well-formed `#RRGGBB` colors). -/
def parseIntHex (cs : List Char) : ℚ :=
  let digs := cs.takeWhile (fun c => (hexDigitVal c).isSome)
  if digs = [] then 0
  else ((digs.foldl (fun acc c => 16 * acc + ((hexDigitVal c).getD 0)) 0 : ℕ) : ℚ)

/-- `Number.parseInt(s.substr(start, 2), 16)`: the two-character substring
of `s` starting at index `start`, parsed as hexadecimal. -/
def parseHexByte (s : String) (start : Nat) : ℚ :=
  parseIntHex ((s.data.drop start).take 2)

/-- The `lerp` function of the source (`index.ts` lines 1009–1023):
clamp `value` into `[sourceMin, sourceMax]`, then map linearly onto
`[targetMin, targetMax]`; if the target endpoints coincide, return them
without dividing. -/
def lerp (value sourceMin sourceMax targetMin targetMax : ℚ) : ℚ :=
  if targetMin = targetMax then targetMin
  else
    let v1 := if value < sourceMin then sourceMin else value
    let v2 := if v1 > sourceMax then sourceMax else v1
    let terp := (v2 - sourceMin) / (sourceMax - sourceMin)
    targetMin + terp * (targetMax - targetMin)

/-- The bracketing loop shared by `linearColorForValue` and
`stepColorForValue`: scan adjacent stop pairs `stops[i], stops[i+1]`
(for `i` from `0` to `length-2`) and return the first pair with
`stops[i].position ≤ value < stops[i+1].position`. -/
def findBracket (value : ℚ) : List GradientStop → Option (GradientStop × GradientStop)
  | s1 :: s2 :: rest =>
    if s1.position ≤ value ∧ value < s2.position then some (s1, s2)
    else findBracket value (s2 :: rest)
  | _ => none

/-- `rgb(r, g, b)` string emission, as in the template literal of
`linearColorForValue`. -/
def rgbString (r g b : ℤ) : String :=
  "rgb(" ++ toString r ++ ", " ++ toString g ++ ", " ++ toString b ++ ")"

/-- `linearColorForValue` (`index.ts` lines 923–964).  The source's
index-based first-match loop is rendered by `findBracket`; the source
initializes `r = g = b = 0` and overwrites them exactly when a bracketing
pair is found, so the branch structure below is equivalent. -/
def linearColorForValue (stops : List GradientStop) (colorType : ColorType) (value : ℚ) : String :=
  match stops with
  | [] => emergencyColor
  | s0 :: rest =>
    let lastStop := rest.getLastD s0
    if value < s0.position then s0.colorOf colorType
    else if lastStop.position ≤ value then lastStop.colorOf colorType
    else
      match findBracket value (s0 :: rest) with
      | some (sFrom, sTo) =>
        let posFrom := sFrom.position
        let rFrom := parseHexByte (sFrom.colorOf colorType) 1
        let gFrom := parseHexByte (sFrom.colorOf colorType) 3
        let bFrom := parseHexByte (sFrom.colorOf colorType) 5
        let posTo := sTo.position
        let rTo := parseHexByte (sTo.colorOf colorType) 1
        let gTo := parseHexByte (sTo.colorOf colorType) 3
        let bTo := parseHexByte (sTo.colorOf colorType) 5
        let r := lerp value posFrom posTo rFrom rTo
        let g := lerp value posFrom posTo gFrom gTo
        let b := lerp value posFrom posTo bFrom bTo
        rgbString ⌊r⌋ ⌊g⌋ ⌊b⌋
      | none => emergencyColor

/-- `stepColorForValue` (`index.ts` lines 975–994): same boundary guards,
then the lower bracketing stop's color verbatim; trailing fall-through to
the emergency color. -/
def stepColorForValue (stops : List GradientStop) (colorType : ColorType) (value : ℚ) : String :=
  match stops with
  | [] => emergencyColor
  | s0 :: rest =>
    let lastStop := rest.getLastD s0
    if value < s0.position then s0.colorOf colorType
    else if lastStop.position ≤ value then lastStop.colorOf colorType
    else
      match findBracket value (s0 :: rest) with
      | some (sFrom, _) => sFrom.colorOf colorType
      | none => emergencyColor

/-- `gradientColorForValue` (`index.ts` lines 905–912): dispatch on the
gradient type string, falling back to the emergency color. -/
def gradientColorForValue (gradient : Gradient) (colorType : ColorType) (value : ℚ) : String :=
  if gradient.type = "linear" then linearColorForValue gradient.stops colorType value
  else if gradient.type = "steps" then stepColorForValue gradient.stops colorType value
  else emergencyColor

/-- Stops sorted ascending by position (duplicates allowed), the
precondition established by `renderWeathermapInto`'s one-time sort. -/
def stopsSorted (stops : List GradientStop) : Prop :=
  stops.Pairwise (fun a b => a.position ≤ b.position)

instance : DecidablePred stopsSorted := fun stops =>
  List.instDecidablePairwise stops

/-- Strict validator/parser for the `#RRGGBB` color encoding assumed by the
spec: exactly `#` followed by six hexadecimal digits, returning the three
8-bit channel values.  This is a specification-side definition used to
state well-formedness hypotheses; the code-side parsing is `parseHexByte`. -/
def hexColorVal (s : String) : Option (Nat × Nat × Nat) :=
  match s.data with
  | ['#', c1, c2, c3, c4, c5, c6] =>
    match hexDigitVal c1, hexDigitVal c2, hexDigitVal c3, hexDigitVal c4,
        hexDigitVal c5, hexDigitVal c6 with
    | some v1, some v2, some v3, some v4, some v5, some v6 =>
      some (16 * v1 + v2, 16 * v3 + v4, 16 * v5 + v6)
    | _, _, _, _, _, _ => none
  | _ => none

/-! ## Helper lemmas: sorted stop lists and the bracketing loop -/

theorem stopsSorted_head_le {s0 x : GradientStop} {rest : List GradientStop}
    (h : stopsSorted (s0 :: rest)) (hx : x ∈ s0 :: rest) : s0.position ≤ x.position := by
  rcases List.mem_cons.mp hx with rfl | hx
  · exact le_refl _
  · exact (List.pairwise_cons.mp h).1 x hx

theorem stopsSorted_tail {s0 : GradientStop} {rest : List GradientStop}
    (h : stopsSorted (s0 :: rest)) : stopsSorted rest :=
  (List.pairwise_cons.mp h).2

theorem stopsSorted_le_getLastD {s0 x : GradientStop} {rest : List GradientStop}
    (h : stopsSorted (s0 :: rest)) (hx : x ∈ s0 :: rest) :
    x.position ≤ (rest.getLastD s0).position := by
  induction rest generalizing s0 with
  | nil =>
    rcases List.mem_cons.mp hx with rfl | hx
    · simp [List.getLastD]
    · simp at hx
  | cons s1 rest' ih =>
    rw [List.getLastD_cons]
    rcases List.mem_cons.mp hx with rfl | hx
    · exact le_trans
        (stopsSorted_head_le h (List.mem_cons_of_mem _ (List.getLastD_mem_cons rest' s1)))
        (le_refl _)
    · exact ih (stopsSorted_tail h) hx

theorem findBracket_guard {v : ℚ} :
    ∀ (stops : List GradientStop) {s1 s2 : GradientStop},
      findBracket v stops = some (s1, s2) → s1.position ≤ v ∧ v < s2.position
  | [], _, _, h => by simp [findBracket] at h
  | [_], _, _, h => by simp [findBracket] at h
  | a :: b :: rest, s1, s2, h => by
    rw [findBracket] at h
    split at h
    · next hg => cases h; exact hg
    · next hg => exact findBracket_guard (b :: rest) h

theorem findBracket_mem {v : ℚ} :
    ∀ (stops : List GradientStop) {s1 s2 : GradientStop},
      findBracket v stops = some (s1, s2) → s1 ∈ stops ∧ s2 ∈ stops
  | [], _, _, h => by simp [findBracket] at h
  | [_], _, _, h => by simp [findBracket] at h
  | a :: b :: rest, s1, s2, h => by
    rw [findBracket] at h
    split at h
    · next hg => cases h; exact ⟨List.mem_cons_self _ _, List.mem_cons_of_mem _ (List.mem_cons_self _ _)⟩
    · next hg =>
      have := findBracket_mem (b :: rest) h
      exact ⟨List.mem_cons_of_mem _ this.1, List.mem_cons_of_mem _ this.2⟩

theorem findBracket_none_getLastD {v : ℚ} :
    ∀ (s0 : GradientStop) (rest : List GradientStop),
      s0.position ≤ v → findBracket v (s0 :: rest) = none →
      (rest.getLastD s0).position ≤ v
  | s0, [], h0, _ => by simpa [List.getLastD] using h0
  | s0, s1 :: rest', h0, h => by
    rw [List.getLastD_cons]
    rw [findBracket] at h
    split at h
    · exact absurd h (by simp)
    · next hg =>
      have h1 : s1.position ≤ v := by
        by_contra hlt
        exact hg ⟨h0, lt_of_not_le hlt⟩
      exact findBracket_none_getLastD s1 rest' h1 h

theorem findBracket_of_sorted {v : ℚ} :
    ∀ (pre : List GradientStop) (sFrom sTo : GradientStop) (post : List GradientStop),
      stopsSorted (pre ++ sFrom :: sTo :: post) → sFrom.position ≤ v → v < sTo.position →
      findBracket v (pre ++ sFrom :: sTo :: post) = some (sFrom, sTo)
  | [], sFrom, sTo, post, _, h1, h2 => by
    rw [List.nil_append, findBracket, if_pos ⟨h1, h2⟩]
  | a :: pre', sFrom, sTo, post, hs, h1, h2 => by
    obtain ⟨c, L, hL⟩ : ∃ c L, pre' ++ sFrom :: sTo :: post = c :: L := by
      cases pre' <;> exact ⟨_, _, rfl⟩
    rw [List.cons_append] at hs ⊢
    rw [hL] at hs ⊢
    have hs' : stopsSorted (c :: L) := stopsSorted_tail hs
    have hmem : sFrom ∈ c :: L := by
      rw [← hL]
      simp
    have hcle : c.position ≤ sFrom.position := stopsSorted_head_le hs' hmem
    rw [findBracket, if_neg (fun hc => absurd hc.2 (not_lt.mpr (le_trans hcle h1)))]
    rw [← hL] at hs' ⊢
    exact findBracket_of_sorted pre' sFrom sTo post hs' h1 h2

theorem parseIntHex_pair {c1 c2 : Char} {v1 v2 : ℕ}
    (h1 : hexDigitVal c1 = some v1) (h2 : hexDigitVal c2 = some v2) :
    parseIntHex [c1, c2] = ((16 * v1 + v2 : ℕ) : ℚ) := by
  simp [parseIntHex, List.takeWhile, h1, h2, Nat.mul_comm]

theorem hexColorVal_parseHexByte {s : String} {r g b : ℕ}
    (h : hexColorVal s = some (r, g, b)) :
    parseHexByte s 1 = (r : ℚ) ∧ parseHexByte s 3 = (g : ℚ) ∧ parseHexByte s 5 = (b : ℚ) := by
  unfold hexColorVal at h
  split at h
  · next c1 c2 c3 c4 c5 c6 hdata =>
    split at h
    · next v1 v2 v3 v4 v5 v6 h1 h2 h3 h4 h5 h6 =>
      injection h with h'
      injection h' with hr h'
      injection h' with hg hb
      subst hr
      subst hg
      subst hb
      refine ⟨?_, ?_, ?_⟩ <;>
        simp [parseHexByte, hdata, parseIntHex_pair, h1, h2, h3, h4, h5, h6]
    · exact absurd h (by simp)
  · exact absurd h (by simp)

theorem linearColorForValue_bracket (pre post : List GradientStop) (sFrom sTo : GradientStop)
    (ct : ColorType) (v : ℚ)
    (hs : stopsSorted (pre ++ sFrom :: sTo :: post))
    (h1 : sFrom.position ≤ v) (h2 : v < sTo.position) :
    linearColorForValue (pre ++ sFrom :: sTo :: post) ct v =
      rgbString
        ⌊lerp v sFrom.position sTo.position (parseHexByte (sFrom.colorOf ct) 1) (parseHexByte (sTo.colorOf ct) 1)⌋
        ⌊lerp v sFrom.position sTo.position (parseHexByte (sFrom.colorOf ct) 3) (parseHexByte (sTo.colorOf ct) 3)⌋
        ⌊lerp v sFrom.position sTo.position (parseHexByte (sFrom.colorOf ct) 5) (parseHexByte (sTo.colorOf ct) 5)⌋ := by
  obtain ⟨s0, rest, hform⟩ : ∃ s0 rest, pre ++ sFrom :: sTo :: post = s0 :: rest := by
    cases pre <;> exact ⟨_, _, rfl⟩
  have hs' : stopsSorted (s0 :: rest) := hform ▸ hs
  have hFmem : sFrom ∈ s0 :: rest := by
    rw [← hform]
    simp
  have hTmem : sTo ∈ s0 :: rest := by
    rw [← hform]
    simp
  have hng1 : ¬(v < s0.position) :=
    not_lt.mpr (le_trans (stopsSorted_head_le hs' hFmem) h1)
  have hng2 : ¬((rest.getLastD s0).position ≤ v) :=
    not_le.mpr (lt_of_lt_of_le h2 (stopsSorted_le_getLastD hs' hTmem))
  have hfb : findBracket v (s0 :: rest) = some (sFrom, sTo) := by
    rw [← hform]
    exact findBracket_of_sorted pre sFrom sTo post hs h1 h2
  rw [hform]
  simp only [linearColorForValue]
  rw [if_neg hng1, if_neg hng2, hfb]

/-! ## Claim C1: gradient boundary clamp -/

/-- C1: for every gradient of type "linear" or "steps" whose stop list is
non-empty and sorted ascending by position, `gradientColorForValue` returns
the first stop's color for the requested channel verbatim whenever
`value < stops[0].position`, and the last stop's color verbatim whenever
`value ≥ stops[last].position`. -/
theorem c1_gradient_boundary_clamp
    (t : String) (s0 : GradientStop) (rest : List GradientStop) (ct : ColorType) (v : ℚ)
    (ht : t = "linear" ∨ t = "steps") (hs : stopsSorted (s0 :: rest)) :
    (v < s0.position → gradientColorForValue ⟨t, s0 :: rest⟩ ct v = s0.colorOf ct) ∧
    ((rest.getLastD s0).position ≤ v →
      gradientColorForValue ⟨t, s0 :: rest⟩ ct v = (rest.getLastD s0).colorOf ct) := by
  constructor
  · intro h
    rcases ht with rfl | rfl
    · simp only [gradientColorForValue]
      rw [if_pos trivial]
      simp only [linearColorForValue]
      rw [if_pos h]
    · simp only [gradientColorForValue]
      rw [if_neg (by decide), if_pos trivial]
      simp only [stepColorForValue]
      rw [if_pos h]
  · intro h
    have hn : ¬(v < s0.position) :=
      not_lt.mpr (le_trans (stopsSorted_head_le hs (List.getLastD_mem_cons rest s0)) h)
    rcases ht with rfl | rfl
    · simp only [gradientColorForValue]
      rw [if_pos trivial]
      simp only [linearColorForValue]
      rw [if_neg hn, if_pos h]
    · simp only [gradientColorForValue]
      rw [if_neg (by decide), if_pos trivial]
      simp only [stepColorForValue]
      rw [if_neg hn, if_pos h]

/-- Witness for C1: both boundary clamps evaluated on the concrete two-stop
gradient `{0: #000000, 100: #ffffff}`. -/
theorem c1_gradient_boundary_clamp_witness :
    gradientColorForValue
        ⟨"linear", [⟨0, "#000000", "#000000", false⟩, ⟨100, "#ffffff", "#ffffff", false⟩]⟩
        ColorType.strokeColor (-5) = "#000000"
    ∧ gradientColorForValue
        ⟨"steps", [⟨0, "#000000", "#000000", false⟩, ⟨100, "#ffffff", "#ffffff", false⟩]⟩
        ColorType.strokeColor 150 = "#ffffff" := by
  constructor
  · exact (c1_gradient_boundary_clamp "linear" ⟨0, "#000000", "#000000", false⟩
      [⟨100, "#ffffff", "#ffffff", false⟩] ColorType.strokeColor (-5)
      (Or.inl rfl) (by decide)).1 (by decide)
  · exact (c1_gradient_boundary_clamp "steps" ⟨0, "#000000", "#000000", false⟩
      [⟨100, "#ffffff", "#ffffff", false⟩] ColorType.strokeColor 150
      (Or.inr rfl) (by decide)).2 (by decide)

/-! ## Claim C8: emergency sentinel fall-backs -/

/-- C8: `gradientColorForValue` returns the fixed emergency sentinel color
when the stop list is empty, when the gradient type is neither "linear"
nor "steps", and when (past the boundary guards) no bracketing stop pair
is found.  (Totality — "never throws" — is inherent in the model: all
definitions are total functions.) -/
theorem c8_emergency_sentinel :
    (∀ (t : String) (ct : ColorType) (v : ℚ),
      gradientColorForValue ⟨t, []⟩ ct v = emergencyColor)
    ∧ (∀ (g : Gradient) (ct : ColorType) (v : ℚ), g.type ≠ "linear" → g.type ≠ "steps" →
      gradientColorForValue g ct v = emergencyColor)
    ∧ (∀ (s0 : GradientStop) (rest : List GradientStop) (ct : ColorType) (v : ℚ),
      ¬(v < s0.position) → ¬((rest.getLastD s0).position ≤ v) →
      findBracket v (s0 :: rest) = none →
      gradientColorForValue ⟨"linear", s0 :: rest⟩ ct v = emergencyColor
      ∧ gradientColorForValue ⟨"steps", s0 :: rest⟩ ct v = emergencyColor) := by
  refine ⟨?_, ?_, ?_⟩
  · intro t ct v
    by_cases h1 : t = "linear"
    · simp [gradientColorForValue, h1, linearColorForValue]
    · by_cases h2 : t = "steps"
      · simp [gradientColorForValue, h1, h2, stepColorForValue]
      · simp [gradientColorForValue, h1, h2]
  · intro g ct v h1 h2
    simp [gradientColorForValue, h1, h2]
  · intro s0 rest ct v h1 h2 hfb
    constructor
    · simp only [gradientColorForValue]
      rw [if_pos trivial]
      simp only [linearColorForValue]
      rw [if_neg h1, if_neg h2, hfb]
    · simp only [gradientColorForValue]
      rw [if_neg (by decide), if_pos trivial]
      simp only [stepColorForValue]
      rw [if_neg h1, if_neg h2, hfb]

/-- Witness for C8: the sentinel on an empty stop list and on a gradient of
unrecognized type. -/
theorem c8_emergency_sentinel_witness :
    gradientColorForValue ⟨"linear", []⟩ ColorType.strokeColor 5 = emergencyColor
    ∧ gradientColorForValue ⟨"bogus", [⟨0, "#000000", "#000000", false⟩]⟩
        ColorType.fillColor 5 = emergencyColor := by
  constructor
  · exact c8_emergency_sentinel.1 "linear" ColorType.strokeColor 5
  · exact c8_emergency_sentinel.2.1 ⟨"bogus", [⟨0, "#000000", "#000000", false⟩]⟩
      ColorType.fillColor 5 (by decide) (by decide)

/-! ## Claim C9: divisions in linear resolution are by nonzero quantities -/

/-- C9: whenever the bracketing loop succeeds, the bracketing guard forces
`stops[i].position < stops[i+1].position`, so the divisor
`sourceMax - sourceMin` passed to `lerp` is strictly positive; and `lerp`
returns `targetMin` without dividing when the target endpoints coincide. -/
theorem c9_division_nonzero :
    (∀ (stops : List GradientStop) (v : ℚ) (s1 s2 : GradientStop),
      findBracket v stops = some (s1, s2) →
      s1.position < s2.position ∧ 0 < s2.position - s1.position)
    ∧ (∀ (v smin smax t : ℚ), lerp v smin smax t t = t) := by
  constructor
  · intro stops v s1 s2 h
    have hg := findBracket_guard stops h
    have hlt := lt_of_le_of_lt hg.1 hg.2
    exact ⟨hlt, sub_pos.mpr hlt⟩
  · intro v smin smax t
    simp [lerp]

/-- Witness for C9: the bracketing pair found at value 50 in the two-stop
gradient has strictly increasing positions. -/
theorem c9_division_nonzero_witness :
    (⟨0, "#000000", "#000000", false⟩ : GradientStop).position <
      (⟨100, "#ffffff", "#ffffff", false⟩ : GradientStop).position
    ∧ lerp 50 0 100 7 7 = 7 := by
  constructor
  · exact ((c9_division_nonzero.1
      [⟨0, "#000000", "#000000", false⟩, ⟨100, "#ffffff", "#ffffff", false⟩] 50
      ⟨0, "#000000", "#000000", false⟩ ⟨100, "#ffffff", "#ffffff", false⟩ (by decide))).1
  · exact c9_division_nonzero.2 50 0 100 7

/-! ## Claim C10: steps mode returns a stop's color verbatim -/

/-- C10: for every non-empty sorted stop list, steps-mode resolution returns
the requested channel's color of some stop of the list verbatim, and the
trailing emergency fall-back after the bracketing loop is unreachable: once
both boundary guards have failed, the bracketing loop necessarily finds a
pair. -/
theorem c10_steps_verbatim
    (s0 : GradientStop) (rest : List GradientStop) (ct : ColorType) (v : ℚ)
    (_hs : stopsSorted (s0 :: rest)) :
    (∃ s ∈ s0 :: rest,
      gradientColorForValue ⟨"steps", s0 :: rest⟩ ct v = s.colorOf ct)
    ∧ (¬(v < s0.position) → ¬((rest.getLastD s0).position ≤ v) →
      (findBracket v (s0 :: rest)).isSome) := by
  have hunfold : gradientColorForValue ⟨"steps", s0 :: rest⟩ ct v
      = stepColorForValue (s0 :: rest) ct v := by
    simp only [gradientColorForValue]
    rw [if_neg (by decide), if_pos trivial]
  constructor
  · by_cases h1 : v < s0.position
    · refine ⟨s0, List.mem_cons_self _ _, ?_⟩
      rw [hunfold]
      simp only [stepColorForValue]
      rw [if_pos h1]
    · by_cases h2 : (rest.getLastD s0).position ≤ v
      · refine ⟨rest.getLastD s0, List.getLastD_mem_cons rest s0, ?_⟩
        rw [hunfold]
        simp only [stepColorForValue]
        rw [if_neg h1, if_pos h2]
      · cases hfb : findBracket v (s0 :: rest) with
        | none =>
          exact absurd (findBracket_none_getLastD s0 rest (not_lt.mp h1) hfb) h2
        | some p =>
          obtain ⟨sF, sT⟩ := p
          refine ⟨sF, (findBracket_mem _ hfb).1, ?_⟩
          rw [hunfold]
          simp only [stepColorForValue]
          rw [if_neg h1, if_neg h2, hfb]
  · intro h1 h2
    cases hfb : findBracket v (s0 :: rest) with
    | none => exact absurd (findBracket_none_getLastD s0 rest (not_lt.mp h1) hfb) h2
    | some p => simp

/-- Witness for C10: the steps gradient `[{0, #ff0000}, {50, #00ff00}]` at
value 25 yields the color of one of its own stops. -/
theorem c10_steps_verbatim_witness :
    ∃ s ∈ [(⟨0, "#ff0000", "#ff0000", false⟩ : GradientStop),
           ⟨50, "#00ff00", "#00ff00", false⟩],
      gradientColorForValue
        ⟨"steps", [⟨0, "#ff0000", "#ff0000", false⟩, ⟨50, "#00ff00", "#00ff00", false⟩]⟩
        ColorType.strokeColor 25 = s.colorOf ColorType.strokeColor :=
  (c10_steps_verbatim ⟨0, "#ff0000", "#ff0000", false⟩ [⟨50, "#00ff00", "#00ff00", false⟩]
    ColorType.strokeColor 25 (by decide)).1

/-! ## Claim C2: linear channel-wise interpolation -/

/-- C2: for every sorted linear gradient with a bracketing pair
`stops[i].position ≤ value < stops[i+1].position` (the pair exposed here as
the adjacent elements `sFrom, sTo` of the stop list) whose endpoint colors
are well-formed `#RRGGBB` strings with channel bytes `(rF,gF,bF)` and
`(rT,gT,bT)`, `gradientColorForValue` interpolates each channel
independently with `lerp` (which clamps the fraction to [0,1]), floors each
channel, and emits `rgb(r, g, b)`; in particular the two-stop linear
gradient `{0: #000000, 100: #ffffff}` at value 50 yields exactly
`rgb(127, 127, 127)`. -/
theorem c2_linear_channel_interpolation :
    (∀ (pre post : List GradientStop) (sFrom sTo : GradientStop) (ct : ColorType) (v : ℚ)
      (rF gF bF rT gT bT : ℕ),
      stopsSorted (pre ++ sFrom :: sTo :: post) →
      hexColorVal (sFrom.colorOf ct) = some (rF, gF, bF) →
      hexColorVal (sTo.colorOf ct) = some (rT, gT, bT) →
      sFrom.position ≤ v → v < sTo.position →
      gradientColorForValue ⟨"linear", pre ++ sFrom :: sTo :: post⟩ ct v =
        rgbString ⌊lerp v sFrom.position sTo.position rF rT⌋
          ⌊lerp v sFrom.position sTo.position gF gT⌋
          ⌊lerp v sFrom.position sTo.position bF bT⌋)
    ∧ (∀ ct : ColorType,
      gradientColorForValue
        ⟨"linear", [⟨0, "#000000", "#000000", false⟩, ⟨100, "#ffffff", "#ffffff", false⟩]⟩
        ct 50 = "rgb(127, 127, 127)") := by
  have hgen : ∀ (pre post : List GradientStop) (sFrom sTo : GradientStop) (ct : ColorType) (v : ℚ)
      (rF gF bF rT gT bT : ℕ),
      stopsSorted (pre ++ sFrom :: sTo :: post) →
      hexColorVal (sFrom.colorOf ct) = some (rF, gF, bF) →
      hexColorVal (sTo.colorOf ct) = some (rT, gT, bT) →
      sFrom.position ≤ v → v < sTo.position →
      gradientColorForValue ⟨"linear", pre ++ sFrom :: sTo :: post⟩ ct v =
        rgbString ⌊lerp v sFrom.position sTo.position rF rT⌋
          ⌊lerp v sFrom.position sTo.position gF gT⌋
          ⌊lerp v sFrom.position sTo.position bF bT⌋ := by
    intro pre post sFrom sTo ct v rF gF bF rT gT bT hs hF hT h1 h2
    have hbF := hexColorVal_parseHexByte hF
    have hbT := hexColorVal_parseHexByte hT
    simp only [gradientColorForValue]
    rw [if_pos trivial]
    rw [linearColorForValue_bracket pre post sFrom sTo ct v hs h1 h2,
      hbF.1, hbF.2.1, hbF.2.2, hbT.1, hbT.2.1, hbT.2.2]
  refine ⟨hgen, ?_⟩
  intro ct
  cases ct
  case strokeColor =>
    have h := hgen [] [] ⟨0, "#000000", "#000000", false⟩ ⟨100, "#ffffff", "#ffffff", false⟩
      ColorType.strokeColor 50 0 0 0 255 255 255
      (by decide) (by decide) (by decide) (by decide) (by decide)
    rw [List.nil_append] at h
    rw [h]
    norm_num [lerp]
    rfl
  case fillColor =>
    have h := hgen [] [] ⟨0, "#000000", "#000000", false⟩ ⟨100, "#ffffff", "#ffffff", false⟩
      ColorType.fillColor 50 0 0 0 255 255 255
      (by decide) (by decide) (by decide) (by decide) (by decide)
    rw [List.nil_append] at h
    rw [h]
    norm_num [lerp]
    rfl

/-- Witness for C2: the general interpolation theorem applied to the
concrete fill-channel bracket of the two-stop gradient at value 50. -/
theorem c2_linear_channel_interpolation_witness :
    gradientColorForValue
      ⟨"linear", [⟨0, "#000000", "#000000", false⟩, ⟨100, "#ffffff", "#ffffff", false⟩]⟩
      ColorType.fillColor 50 = rgbString 127 127 127 := by
  have h := c2_linear_channel_interpolation.1 [] []
    ⟨0, "#000000", "#000000", false⟩ ⟨100, "#ffffff", "#ffffff", false⟩
    ColorType.fillColor 50 0 0 0 255 255 255
    (by decide) (by decide) (by decide) (by decide) (by decide)
  rw [List.nil_append] at h
  rw [h]
  norm_num [lerp]

/-! ## Geometry data model (geometry.ts) -/

/-- `Point2D` from the source: a point of the plane. -/
structure Point2D where
  x : ℚ
  y : ℚ
deriving DecidableEq, Repr

/-- `midpoint` (`geometry.ts` lines 8–13); named `midpoint2D` here because
Mathlib already declares `midpoint`. -/
def midpoint2D (point1 point2 : Point2D) : Point2D :=
  { x := (point1.x + point2.x) / 2, y := (point1.y + point2.y) / 2 }

/-- The 7-point return value of `halveCubicBezier`; field `ei` is array
element `[i]` of the source's returned tuple. -/
structure SevenPoints where
  e0 : Point2D
  e1 : Point2D
  e2 : Point2D
  e3 : Point2D
  e4 : Point2D
  e5 : Point2D
  e6 : Point2D
deriving DecidableEq, Repr

/-- The de Casteljau computation of `halveCubicBezier` (`geometry.ts`
lines 50–59), reached after both `null` controls have been substituted. -/
def halveFull (point1 control1 control2 point2 : Point2D) : SevenPoints :=
  let m1 := midpoint2D point1 control1
  let m2 := midpoint2D control1 control2
  let m3 := midpoint2D control2 point2
  let q1 := midpoint2D m1 m2
  let q2 := midpoint2D m2 m3
  let o := midpoint2D q1 q2
  ⟨point1, m1, q1, o, q2, m3, point2⟩

/-- `halveCubicBezier` (`geometry.ts` lines 34–60).  The source's sequential
null-substitution (`control1 = point1` when only `control1` is null,
`control2 = point2` when `control2` is null) is rendered as a match on the
two options; the both-null case returns the degenerate straight-line
split. -/
def halveCubicBezier (point1 : Point2D) (control1 control2 : Option Point2D)
    (point2 : Point2D) : SevenPoints :=
  match control1, control2 with
  | none, none =>
    let straightMidpoint := midpoint2D point1 point2
    ⟨point1, point1, straightMidpoint, straightMidpoint, straightMidpoint, point2, point2⟩
  | none, some c2 => halveFull point1 point1 c2 point2
  | some c1, none => halveFull point1 c1 point2 point2
  | some c1, some c2 => halveFull point1 c1 c2 point2

/-- The point of the cubic Bézier curve with control polygon
`p1, c1, c2, p2` at parameter `t` (Bernstein form); a specification-side
definition used to state that the split point is the curve's true
midpoint. -/
def cubicBezierPoint (p1 c1 c2 p2 : Point2D) (t : ℚ) : Point2D :=
  { x := (1-t)^3 * p1.x + 3*(1-t)^2*t * c1.x + 3*(1-t)*t^2 * c2.x + t^3 * p2.x,
    y := (1-t)^3 * p1.y + 3*(1-t)^2*t * c1.y + 3*(1-t)*t^2 * c2.y + t^3 * p2.y }

/-! ## Claim C3: de Casteljau halving -/

/-- C3: with both control points present, `halveCubicBezier` returns the
7-tuple `[p1, m1, q1, o, q2, m3, p2]` of the de Casteljau subdivision at
`t = 1/2` — `m1, m2, m3` the midpoints of the control polygon edges,
`q1, q2` their midpoints, `o` their midpoint — and `o` is the curve's true
midpoint (the Bernstein evaluation at `t = 1/2`) and the junction of the
two halves (elements `[3]` of both); with exactly one control point null,
that control is first replaced by its nearer endpoint and the same
algorithm applies. -/
theorem c3_halve_cubic_bezier (p1 c1 c2 p2 : Point2D) :
    (halveCubicBezier p1 (some c1) (some c2) p2 =
      ⟨p1,
       midpoint2D p1 c1,
       midpoint2D (midpoint2D p1 c1) (midpoint2D c1 c2),
       midpoint2D (midpoint2D (midpoint2D p1 c1) (midpoint2D c1 c2))
         (midpoint2D (midpoint2D c1 c2) (midpoint2D c2 p2)),
       midpoint2D (midpoint2D c1 c2) (midpoint2D c2 p2),
       midpoint2D c2 p2,
       p2⟩)
    ∧ (halveCubicBezier p1 (some c1) (some c2) p2).e3 = cubicBezierPoint p1 c1 c2 p2 (1/2)
    ∧ halveCubicBezier p1 none (some c2) p2 = halveCubicBezier p1 (some p1) (some c2) p2
    ∧ halveCubicBezier p1 (some c1) none p2 = halveCubicBezier p1 (some c1) (some p2) p2 := by
  refine ⟨rfl, ?_, rfl, rfl⟩
  show midpoint2D (midpoint2D (midpoint2D p1 c1) (midpoint2D c1 c2))
      (midpoint2D (midpoint2D c1 c2) (midpoint2D c2 p2)) = cubicBezierPoint p1 c1 c2 p2 (1/2)
  simp only [midpoint2D, cubicBezierPoint, Point2D.mk.injEq]
  constructor <;> ring

/-! ## Claim C7: degenerate halving of a straight line -/

/-- C7: with both control points null, `halveCubicBezier` returns the
degenerate split `[p1, p1, m, m, m, p2, p2]` with `m` the geometric
midpoint — element `[3]` is the midpoint and every other interior element
is `p1`, `p2` or that midpoint — and halving the straight line from (0,0)
to (10,0) yields midpoint (5,0). -/
theorem c7_degenerate_halving :
    (∀ p1 p2 : Point2D,
      halveCubicBezier p1 none none p2 =
        ⟨p1, p1, midpoint2D p1 p2, midpoint2D p1 p2, midpoint2D p1 p2, p2, p2⟩)
    ∧ (halveCubicBezier ⟨0, 0⟩ none none ⟨10, 0⟩).e3 = ⟨5, 0⟩ := by
  refine ⟨fun p1 p2 => rfl, ?_⟩
  show midpoint2D ⟨0, 0⟩ ⟨10, 0⟩ = ⟨5, 0⟩
  simp only [midpoint2D, Point2D.mk.injEq]
  norm_num

/-! ## Multi-stroke edge placement (index.ts, makeAndPlaceEdge) -/

/-- A character matched by the separator regex `[ ,]` of
`strokeWidthArray.split(/[ ,]+/)`. -/
def isSepChar (c : Char) : Bool := c = ' ' || c = ','

/-- `String.split(/[ ,]+/)`: split at maximal nonempty runs of spaces and
commas, keeping leading/trailing empty tokens exactly as JavaScript does.
The flag is `false` while accumulating the current token (held reversed in
`acc`) and `true` while consuming a separator run. -/
def splitSepAux : Bool → List Char → List Char → List String
  | false, acc, [] => [String.mk acc.reverse]
  | false, acc, c :: rest =>
    if isSepChar c then String.mk acc.reverse :: splitSepAux true [] rest
    else splitSepAux false (c :: acc) rest
  | true, _, [] => [""]
  | true, _, c :: rest =>
    if isSepChar c then splitSepAux true [] rest else splitSepAux false [c] rest

/-- `strokeWidthArray.split(/[ ,]+/)`. -/
def splitSepRuns (s : String) : List String := splitSepAux false [] s.data

/-- Decimal digit-string accumulation used by the `parseFloat` model. -/
def natOfDecDigits (cs : List Char) : ℕ :=
  cs.foldl (fun acc c => 10 * acc + (c.toNat - '0'.toNat)) 0

/-- `Number.parseFloat` on the width tokens: optional sign, integer digits,
optional fractional digits.  Exponents and leading whitespace (which the
split never produces here) are not modelled; a fully non-numeric token
gives NaN in the source, modelled as 0 here (no theorem depends on it). -/
def parseFloatQ (s : String) : ℚ :=
  let cs := s.data
  let signAndRest : ℚ × List Char :=
    match cs with
    | '-' :: rest => (-1, rest)
    | '+' :: rest => (1, rest)
    | _ => (1, cs)
  let intPart := signAndRest.2.takeWhile Char.isDigit
  let afterInt := signAndRest.2.dropWhile Char.isDigit
  let fracPart :=
    match afterInt with
    | '.' :: r => r.takeWhile Char.isDigit
    | _ => []
  if intPart = [] ∧ fracPart = [] then 0
  else
    signAndRest.1 *
      ((natOfDecDigits intPart : ℚ) + (natOfDecDigits fracPart : ℚ) / 10 ^ fracPart.length)

/-- One stroke emitted by `makeAndPlaceEdge`: its `stroke-width` and the
four (possibly absent) points of its offset path. -/
structure PlacedStroke where
  width : ℚ
  startPoint : Point2D
  control1 : Option Point2D
  control2 : Option Point2D
  endPoint : Point2D
deriving DecidableEq, Repr

/-- The stroke-emission loop of `makeAndPlaceEdge` (`index.ts` lines
343–395): `ouv` is the local `offsetUnitVector`, the `ℚ` and `Bool`
arguments are the loop state `currentOffset` and `isSpacing` (initially
`-totalStrokeWidth/2` and `true`); each gap advances the offset, each
stroke is emitted translated by `offsetUnitVector * (currentOffset +
strokeWidth/2)` and then advances the offset. -/
def strokeLoop (ouv startP : Point2D) (control1 control2 : Option Point2D) (endP : Point2D) :
    ℚ → Bool → List ℚ → List PlacedStroke
  | _, _, [] => []
  | currentOffset, isSpacing, strokeWidth :: rest =>
    let isSpacing1 := !isSpacing
    if isSpacing1 then
      strokeLoop ouv startP control1 control2 endP (currentOffset + strokeWidth) isSpacing1 rest
    else
      let xOffset := ouv.x * (currentOffset + strokeWidth / 2)
      let yOffset := ouv.y * (currentOffset + strokeWidth / 2)
      { width := strokeWidth,
        startPoint := ⟨startP.x + xOffset, startP.y + yOffset⟩,
        control1 := control1.map (fun c => ⟨c.x + xOffset, c.y + yOffset⟩),
        control2 := control2.map (fun c => ⟨c.x + xOffset, c.y + yOffset⟩),
        endPoint := ⟨endP.x + xOffset, endP.y + yOffset⟩ } ::
        strokeLoop ouv startP control1 control2 endP (currentOffset + strokeWidth) isSpacing1 rest

/-- `strokeWidths.reduce((acc, cur) => acc + cur, 0)` (`index.ts` line 343). -/
def totalStrokeWidth (ws : List ℚ) : ℚ := ws.foldl (fun acc cur => acc + cur) 0

/-- `index.ts` lines 282–287: the default single-width pattern, or the
parsed `strokeWidthArray`.  JavaScript truthiness: an absent style / width
array, or the empty string, falls back to `[config.strokeWidth]`. -/
def resolveStrokeWidths (defaultWidth : ℚ) (strokeWidthArray : Option String) : List ℚ :=
  match strokeWidthArray with
  | some swa => if swa = "" then [defaultWidth] else (splitSepRuns swa).map parseFloatQ
  | none => [defaultWidth]

/-- `index.ts` lines 289–292: an even-length pattern is doubled
(`strokeWidths.push(...strokeWidths)`). -/
def completeWidths (ws : List ℚ) : List ℚ :=
  if ws.length % 2 ≠ 1 then ws ++ ws else ws

/-- The geometric content of `makeAndPlaceEdge` (`index.ts` lines 277–395):
pattern resolution, self-completion, offset-axis selection, and the
emission loop.  `ouvIfMulti` stands for the unit offset vector
`unitVector(rot90(start − end))` computed at lines 294–312, whose
Euclidean normalization (a square root) has no exact rational counterpart;
every theorem below holds for all its values.  When the pattern has a
single element the source keeps the zero vector. -/
def makeAndPlaceEdge (ouvIfMulti : Point2D) (defaultWidth : ℚ) (strokeWidthArray : Option String)
    (startP : Point2D) (control1 control2 : Option Point2D) (endP : Point2D) : List PlacedStroke :=
  let strokeWidths := completeWidths (resolveStrokeWidths defaultWidth strokeWidthArray)
  let offsetUnitVector := if strokeWidths.length > 1 then ouvIfMulti else ⟨0, 0⟩
  strokeLoop offsetUnitVector startP control1 control2 endP
    (-(totalStrokeWidth strokeWidths) / 2) true strokeWidths

/-! Specification-side formulations for claims C4 and C5, written from the
claims' words: stroke entries sit at even indices, gap entries at odd
indices; a stroke entry's centerline offset is the running offset at its
entry (the initial offset plus all earlier entry widths) plus half its own
width. -/

/-- The centerline offset the claim assigns to entry `i`. -/
def claimCenterline (ws : List ℚ) (init : ℚ) (i : ℕ) : ℚ :=
  init + (ws.take i).sum + ws.getD i 0 / 2

/-- The (width, centerline) pairs of the stroke entries (even indices). -/
def claimStrokePairs (ws : List ℚ) (init : ℚ) : List (ℚ × ℚ) :=
  ((List.range ws.length).filter (fun i => i % 2 = 0)).map
    (fun i => (ws.getD i 0, claimCenterline ws init i))

/-- The (width, centerline) pairs of the gap entries (odd indices); used to
state the loop invariant. -/
def claimStrokePairsOdd (ws : List ℚ) (init : ℚ) : List (ℚ × ℚ) :=
  ((List.range ws.length).filter (fun i => i % 2 = 1)).map
    (fun i => (ws.getD i 0, claimCenterline ws init i))

/-- The sum of the stroke entries only (gaps excluded) — the quantity the
original claim C4 calls the "total drawn width". -/
def sumStrokeEntriesOnly (ws : List ℚ) : ℚ :=
  (((List.range ws.length).filter (fun i => i % 2 = 0)).map (fun i => ws.getD i 0)).sum

/-- A stroke of width `wc.1` whose path is the base segment translated by
`ouv * wc.2` — the claim's description of an emitted stroke. -/
def placedAt (ouv startP : Point2D) (control1 control2 : Option Point2D) (endP : Point2D)
    (wc : ℚ × ℚ) : PlacedStroke :=
  { width := wc.1,
    startPoint := ⟨startP.x + ouv.x * wc.2, startP.y + ouv.y * wc.2⟩,
    control1 := control1.map (fun c => ⟨c.x + ouv.x * wc.2, c.y + ouv.y * wc.2⟩),
    control2 := control2.map (fun c => ⟨c.x + ouv.x * wc.2, c.y + ouv.y * wc.2⟩),
    endPoint := ⟨endP.x + ouv.x * wc.2, endP.y + ouv.y * wc.2⟩ }

theorem range_filter_even_succ (n : ℕ) :
    (List.range (n + 1)).filter (fun i => i % 2 = 0)
      = 0 :: ((List.range n).filter (fun i => i % 2 = 1)).map Nat.succ := by
  rw [List.range_succ_eq_map, List.filter_cons_of_pos (by simp), List.filter_map]
  congr 1
  congr 1
  apply List.filter_congr
  intro a _
  apply decide_eq_decide.mpr
  simp only [Function.comp_apply, Nat.succ_eq_add_one]
  omega

theorem range_filter_odd_succ (n : ℕ) :
    (List.range (n + 1)).filter (fun i => i % 2 = 1)
      = ((List.range n).filter (fun i => i % 2 = 0)).map Nat.succ := by
  rw [List.range_succ_eq_map, List.filter_cons_of_neg (by simp), List.filter_map]
  congr 1
  apply List.filter_congr
  intro a _
  apply decide_eq_decide.mpr
  simp only [Function.comp_apply, Nat.succ_eq_add_one]
  omega

theorem claimStrokePairs_cons (w : ℚ) (ws : List ℚ) (init : ℚ) :
    claimStrokePairs (w :: ws) init = (w, init + w / 2) :: claimStrokePairsOdd ws (init + w) := by
  unfold claimStrokePairs claimStrokePairsOdd
  rw [List.length_cons, range_filter_even_succ, List.map_cons, List.map_map]
  congr 1
  · simp [claimCenterline]
  · have hfun : ((fun i => ((w :: ws).getD i 0, claimCenterline (w :: ws) init i)) ∘ Nat.succ)
        = fun i => (ws.getD i 0, claimCenterline ws (init + w) i) := by
      funext i
      simp [Function.comp, claimCenterline, List.getD_cons_succ, List.take_succ_cons, add_assoc]
    rw [hfun]

theorem claimStrokePairsOdd_cons (w : ℚ) (ws : List ℚ) (init : ℚ) :
    claimStrokePairsOdd (w :: ws) init = claimStrokePairs ws (init + w) := by
  unfold claimStrokePairs claimStrokePairsOdd
  rw [List.length_cons, range_filter_odd_succ, List.map_map]
  have hfun : ((fun i => ((w :: ws).getD i 0, claimCenterline (w :: ws) init i)) ∘ Nat.succ)
      = fun i => (ws.getD i 0, claimCenterline ws (init + w) i) := by
    funext i
    simp [Function.comp, claimCenterline, List.getD_cons_succ, List.take_succ_cons, add_assoc]
  rw [hfun]

theorem claimStrokePairs_nil (init : ℚ) : claimStrokePairs [] init = [] := rfl

theorem claimStrokePairsOdd_nil (init : ℚ) : claimStrokePairsOdd [] init = [] := rfl

theorem strokeLoop_eq_claimStrokePairs (ouv startP : Point2D)
    (control1 control2 : Option Point2D) (endP : Point2D) (ws : List ℚ) :
    ∀ off : ℚ,
      strokeLoop ouv startP control1 control2 endP off true ws
        = (claimStrokePairs ws off).map (placedAt ouv startP control1 control2 endP)
      ∧ strokeLoop ouv startP control1 control2 endP off false ws
        = (claimStrokePairsOdd ws off).map (placedAt ouv startP control1 control2 endP) := by
  induction ws with
  | nil =>
    intro off
    constructor <;> simp [strokeLoop, claimStrokePairs_nil, claimStrokePairsOdd_nil]
  | cons w rest ih =>
    intro off
    constructor
    · rw [claimStrokePairs_cons, List.map_cons]
      simp only [strokeLoop, Bool.not_true, if_neg (by simp : ¬(false = true))]
      rw [(ih (off + w)).2]
      rfl
    · rw [claimStrokePairsOdd_cons]
      simp only [strokeLoop, Bool.not_false, if_pos rfl]
      exact (ih (off + w)).1

theorem foldl_add_eq_sum (a : ℚ) (ws : List ℚ) :
    ws.foldl (fun acc cur => acc + cur) a = a + ws.sum := by
  induction ws generalizing a with
  | nil => simp
  | cons w rest ih => simp [ih, add_assoc]

theorem totalStrokeWidth_eq_sum (ws : List ℚ) : totalStrokeWidth ws = ws.sum := by
  simp [totalStrokeWidth, foldl_add_eq_sum]

/-! ## Claim C4 (corrected): multi-stroke offset centering -/

/-- Counterexample to C4 as stated: for the width pattern `[2, 1, 2]`
(strokes 2 and 2, gap 1) the code's `totalStrokeWidth` sums ALL entries
(5, giving emitted centerlines -3/2 and 3/2), not just the stroke entries
(4, which would give centerlines -1 and 2 under the claimed
initialization), so the emitted strokes differ from the claim's
prediction. -/
theorem c4_counterexample :
    totalStrokeWidth [2, 1, 2] = 5
    ∧ sumStrokeEntriesOnly [2, 1, 2] = 4
    ∧ strokeLoop ⟨1, 0⟩ ⟨0, 0⟩ none none ⟨0, 0⟩ (-(totalStrokeWidth [2, 1, 2]) / 2) true [2, 1, 2]
      ≠ (claimStrokePairs [2, 1, 2] (-(sumStrokeEntriesOnly [2, 1, 2]) / 2)).map
          (placedAt ⟨1, 0⟩ ⟨0, 0⟩ none none ⟨0, 0⟩) := by
  have htot : totalStrokeWidth [2, 1, 2] = 5 := by
    norm_num [totalStrokeWidth]
  have hsse : sumStrokeEntriesOnly [2, 1, 2] = 4 := by
    simp only [sumStrokeEntriesOnly]
    rw [(by rfl : ((List.range (List.length ([2, 1, 2] : List ℚ))).filter
      (fun i => i % 2 = 0)) = [0, 2])]
    rw [(by rfl : List.map (fun i => ([2, 1, 2] : List ℚ).getD i 0) [0, 2] = [2, 2])]
    norm_num
  refine ⟨htot, hsse, ?_⟩
  have hcode : strokeLoop ⟨1, 0⟩ ⟨0, 0⟩ none none ⟨0, 0⟩
      (-(totalStrokeWidth [2, 1, 2]) / 2) true [2, 1, 2]
      = [⟨2, ⟨-(3/2), 0⟩, none, none, ⟨-(3/2), 0⟩⟩, ⟨2, ⟨3/2, 0⟩, none, none, ⟨3/2, 0⟩⟩] := by
    rw [htot]
    norm_num [strokeLoop, PlacedStroke.mk.injEq, Point2D.mk.injEq]
  have hinit : -(sumStrokeEntriesOnly [2, 1, 2]) / 2 = -2 := by
    rw [hsse]
    norm_num
  have hpairs : claimStrokePairs [2, 1, 2] (-2) = [(2, -1), (2, 2)] := by
    rw [claimStrokePairs_cons, claimStrokePairsOdd_cons, claimStrokePairs_cons,
      claimStrokePairsOdd_nil]
    norm_num
  have hclaim : (claimStrokePairs [2, 1, 2] (-(sumStrokeEntriesOnly [2, 1, 2]) / 2)).map
      (placedAt ⟨1, 0⟩ ⟨0, 0⟩ none none ⟨0, 0⟩)
      = [⟨2, ⟨-1, 0⟩, none, none, ⟨-1, 0⟩⟩, ⟨2, ⟨2, 0⟩, none, none, ⟨2, 0⟩⟩] := by
    rw [hinit, hpairs]
    norm_num [placedAt, PlacedStroke.mk.injEq, Point2D.mk.injEq]
  rw [hcode, hclaim]
  intro h
  simp only [List.cons.injEq, PlacedStroke.mk.injEq, Point2D.mk.injEq] at h
  norm_num at h

/-- C4 (amended): the total drawn width summed by the code is the sum of
ALL entries of the width pattern (strokes and gaps alike); the running
offset starts at minus half that total; each emitted stroke's path is the
base segment translated along the offset unit vector by the running offset
at its entry plus half its own width (the even-index entries being the
strokes); and for a single-element pattern (the default stroke width with
no style array) the one emitted stroke coincides with the unmodified
original segment. -/
theorem c4_multistroke_offsets :
    (∀ (ws : List ℚ) (ouv startP : Point2D) (c1 c2 : Option Point2D) (endP : Point2D),
      strokeLoop ouv startP c1 c2 endP (-(totalStrokeWidth ws) / 2) true ws
        = (claimStrokePairs ws (-(totalStrokeWidth ws) / 2)).map (placedAt ouv startP c1 c2 endP))
    ∧ (∀ ws : List ℚ, totalStrokeWidth ws = ws.sum)
    ∧ (∀ (ouvIfMulti startP : Point2D) (c1 c2 : Option Point2D) (endP : Point2D) (w : ℚ),
      makeAndPlaceEdge ouvIfMulti w none startP c1 c2 endP = [⟨w, startP, c1, c2, endP⟩]) := by
  refine ⟨?_, totalStrokeWidth_eq_sum, ?_⟩
  · intro ws ouv startP c1 c2 endP
    exact (strokeLoop_eq_claimStrokePairs ouv startP c1 c2 endP ws
      (-(totalStrokeWidth ws) / 2)).1
  · intro ouvIfMulti startP c1 c2 endP w
    have h2 : completeWidths (resolveStrokeWidths w none) = [w] := by
      simp [completeWidths, resolveStrokeWidths]
    simp only [makeAndPlaceEdge, h2]
    norm_num [strokeLoop, totalStrokeWidth]

/-! ## Claim C5 (corrected): stroke pattern self-completion -/

theorem parseFloatQ_two : parseFloatQ "2" = 2 := by
  show (1 : ℚ) * ((natOfDecDigits ['2'] : ℚ) + (natOfDecDigits [] : ℚ) / 10 ^ (0 : ℕ)) = 2
  norm_num [natOfDecDigits, (by decide : '2'.toNat - '0'.toNat = 2)]

theorem parseFloatQ_one : parseFloatQ "1" = 1 := by
  show (1 : ℚ) * ((natOfDecDigits ['1'] : ℚ) + (natOfDecDigits [] : ℚ) / 10 ^ (0 : ℕ)) = 1
  norm_num [natOfDecDigits, (by decide : '1'.toNat - '0'.toNat = 1)]

theorem resolveStrokeWidths_two_one : resolveStrokeWidths 4 (some "2 1") = [2, 1] := by
  simp only [resolveStrokeWidths]
  rw [if_neg (by decide : ¬("2 1" = ""))]
  rw [(by rfl : splitSepRuns "2 1" = ["2", "1"])]
  simp [parseFloatQ_two, parseFloatQ_one]

/-- Counterexample to C5 as stated: the parsed pattern of `"2 1"` is
`[2, 1]`; doubling it yields `[2, 1, 2, 1]`, whose length 4 is even — not
odd as claimed — and whose last entry sits at the odd index 3, i.e. is a
gap entry, not a stroke entry. -/
theorem c5_counterexample :
    resolveStrokeWidths 4 (some "2 1") = [2, 1]
    ∧ completeWidths (resolveStrokeWidths 4 (some "2 1")) = [2, 1, 2, 1]
    ∧ (completeWidths (resolveStrokeWidths 4 (some "2 1"))).length = 4
    ∧ ¬((completeWidths (resolveStrokeWidths 4 (some "2 1"))).length % 2 = 1)
    ∧ ¬(((completeWidths (resolveStrokeWidths 4 (some "2 1"))).length - 1) % 2 = 0) := by
  have h1 := resolveStrokeWidths_two_one
  have h2 : completeWidths ([2, 1] : List ℚ) = [2, 1, 2, 1] := by
    simp [completeWidths]
  rw [h1, h2]
  refine ⟨rfl, rfl, rfl, by decide, by decide⟩

/-- C5 (amended): every parsed width pattern of even length is doubled
(appended to itself) before offset computation, entries alternating stroke
(even index) and gap (odd index); the doubled pattern again has even
length (hence ends on a gap entry); in particular `"2 1"` parses to
`[2, 1]`, is treated as `[2, 1, 2, 1]`, and yields exactly 2 emitted
strokes. -/
theorem c5_pattern_self_completion :
    (∀ ws : List ℚ, ws.length % 2 = 0 → completeWidths ws = ws ++ ws)
    ∧ (∀ ws : List ℚ, (ws ++ ws).length % 2 = 0)
    ∧ resolveStrokeWidths 4 (some "2 1") = [2, 1]
    ∧ completeWidths [2, 1] = [2, 1, 2, 1]
    ∧ (∀ (ouvIfMulti startP : Point2D) (c1 c2 : Option Point2D) (endP : Point2D),
      (makeAndPlaceEdge ouvIfMulti 4 (some "2 1") startP c1 c2 endP).length = 2) := by
  have h2 : completeWidths ([2, 1] : List ℚ) = [2, 1, 2, 1] := by
    simp [completeWidths]
  refine ⟨?_, ?_, resolveStrokeWidths_two_one, h2, ?_⟩
  · intro ws h
    simp [completeWidths, h]
  · intro ws
    simp [List.length_append]
    omega
  · intro ouvIfMulti startP c1 c2 endP
    have hw : completeWidths (resolveStrokeWidths 4 (some "2 1")) = [2, 1, 2, 1] := by
      rw [resolveStrokeWidths_two_one, h2]
    simp only [makeAndPlaceEdge, hw]
    rw [(strokeLoop_eq_claimStrokePairs _ startP c1 c2 endP [2, 1, 2, 1] _).1]
    rw [List.length_map]
    simp only [claimStrokePairs, List.length_map]
    rw [(by rfl : (List.range (List.length ([2, 1, 2, 1] : List ℚ))).filter
      (fun i => i % 2 = 0) = [0, 2])]
    rfl

/-- Witness for C5: the even-length pattern `[2, 1]` is doubled. -/
theorem c5_pattern_self_completion_witness :
    (([2, 1] : List ℚ).length % 2 = 0) ∧ completeWidths [2, 1] = [2, 1] ++ [2, 1] :=
  ⟨by decide, c5_pattern_self_completion.1 [2, 1] (by decide)⟩

/-! ## Bend geometry (placeEdges, index.ts lines 190–211) — real-valued -/

/-- `Point2D` as used by the trigonometric bend computation; modelled over
`ℝ` because `Math.atan2` / `Math.cos` / `Math.sin` / `Math.PI` have no
exact rational counterpart. -/
structure PointR where
  x : ℝ
  y : ℝ

/-- `deg2rad` (`geometry.ts` lines 119–121). -/
noncomputable def deg2rad (angleDegrees : ℝ) : ℝ := angleDegrees * Real.pi / 180

/-- `polarToCartesian` (`geometry.ts` lines 69–81), including its
null-defaulting of both arguments. -/
noncomputable def polarToCartesian (angleRadians : Option ℝ) (len : Option ℝ) : PointR :=
  ⟨len.getD 0 * Real.cos (angleRadians.getD 0), len.getD 0 * Real.sin (angleRadians.getD 0)⟩

/-- `Math.atan2(y, x)`, modelled as the complex argument of `x + y·i`;
like `Math.atan2` its range is `(-π, π]`. -/
noncomputable def atan2 (y x : ℝ) : ℝ := Complex.arg ⟨x, y⟩

/-- `normalizeAngle` (`geometry.ts` lines 89–97) normalizes an angle into
`(-π, π]` by two while loops repeatedly adding (while `a ≤ -π`) or
subtracting (while `a > π`) `2π`.  This is the loops' denotation in closed
form: subtract the unique integer multiple of `2π` landing the input in
`(-π, π]`.  The lemmas `normalizeAngle_eq_self`, `normalizeAngle_add_two_pi`
and `normalizeAngle_sub_two_pi` below are exactly the defining equations of
the source's loops and pin this definition down as their denotation. -/
noncomputable def normalizeAngle (angleRadians : ℝ) : ℝ :=
  angleRadians - 2 * Real.pi * ⌈(angleRadians - Real.pi) / (2 * Real.pi)⌉

theorem normalizeAngle_mem (a : ℝ) :
    -Real.pi < normalizeAngle a ∧ normalizeAngle a ≤ Real.pi := by
  have h2pi : (0 : ℝ) < 2 * Real.pi := by positivity
  have hle : a - Real.pi ≤ (⌈(a - Real.pi) / (2 * Real.pi)⌉ : ℝ) * (2 * Real.pi) :=
    (div_le_iff₀ h2pi).mp (Int.le_ceil _)
  have hlt : (⌈(a - Real.pi) / (2 * Real.pi)⌉ : ℝ) * (2 * Real.pi)
      < (a - Real.pi) + 1 * (2 * Real.pi) := by
    have h := Int.ceil_lt_add_one ((a - Real.pi) / (2 * Real.pi))
    have h2 := mul_lt_mul_of_pos_right h h2pi
    rwa [add_mul, div_mul_cancel₀ _ (ne_of_gt h2pi)] at h2
  unfold normalizeAngle
  constructor
  · nlinarith [hlt]
  · nlinarith [hle]

theorem normalizeAngle_eq_add_int_mul (a : ℝ) :
    ∃ k : ℤ, normalizeAngle a = a + 2 * Real.pi * k := by
  refine ⟨-⌈(a - Real.pi) / (2 * Real.pi)⌉, ?_⟩
  unfold normalizeAngle
  push_cast
  ring

theorem normalizeAngle_eq_self {a : ℝ} (h1 : -Real.pi < a) (h2 : a ≤ Real.pi) :
    normalizeAngle a = a := by
  have h2pi : (0 : ℝ) < 2 * Real.pi := by positivity
  have hc : ⌈(a - Real.pi) / (2 * Real.pi)⌉ = 0 := by
    rw [Int.ceil_eq_zero_iff, Set.mem_Ioc]
    constructor
    · rw [lt_div_iff₀ h2pi]
      linarith
    · rw [div_le_iff₀ h2pi]
      linarith
  unfold normalizeAngle
  rw [hc]
  simp

theorem normalizeAngle_add_two_pi (a : ℝ) :
    normalizeAngle (a + 2 * Real.pi) = normalizeAngle a := by
  have h2pi : (2 * Real.pi) ≠ 0 := by positivity
  have harg : (a + 2 * Real.pi - Real.pi) / (2 * Real.pi)
      = (a - Real.pi) / (2 * Real.pi) + 1 := by
    field_simp
    ring
  unfold normalizeAngle
  rw [harg, Int.ceil_add_one]
  push_cast
  ring

theorem normalizeAngle_sub_two_pi (a : ℝ) :
    normalizeAngle (a - 2 * Real.pi) = normalizeAngle a := by
  have h2pi : (2 * Real.pi) ≠ 0 := by positivity
  have harg : (a - 2 * Real.pi - Real.pi) / (2 * Real.pi)
      = (a - Real.pi) / (2 * Real.pi) - 1 := by
    field_simp
    ring
  unfold normalizeAngle
  rw [harg, Int.ceil_sub_one]
  push_cast
  ring

/-- JavaScript truthiness of an optional numeric field: present and
nonzero.  (`NaN`, also falsy, is not modelled.) -/
def truthyNum : Option ℝ → Prop
  | none => False
  | some v => v ≠ 0

open scoped Classical in
/-- The bend (control point) computation of `placeEdges` (`index.ts` lines
190–211): when `bendDirection` and `bendMagnitude` are both truthy, take
the angle from each node's anchor to the other (screen coordinates:
`atan2(y1 − y2, x2 − x1)`), rotate by `deg2rad bendDirection` (added for
node 1, subtracted for node 2), normalize, convert to a Cartesian offset
with `bendMagnitude`, and add the offset's x / subtract its y at the
respective anchor; otherwise both control points stay `null`. -/
noncomputable def bendControlPoints (n1Center n2Center : PointR)
    (bendDirection bendMagnitude : Option ℝ) : Option PointR × Option PointR :=
  match bendDirection, bendMagnitude with
  | some bd, some bm =>
    if bd ≠ 0 ∧ bm ≠ 0 then
      let n1N2Angle := atan2 (n1Center.y - n2Center.y) (n2Center.x - n1Center.x)
      let n2N1Angle := atan2 (n2Center.y - n1Center.y) (n1Center.x - n2Center.x)
      let n1N2BendAngle := normalizeAngle (n1N2Angle + deg2rad bd)
      let n2N1BendAngle := normalizeAngle (n2N1Angle - deg2rad bd)
      let control1Offset := polarToCartesian (some n1N2BendAngle) (some bm)
      let control2Offset := polarToCartesian (some n2N1BendAngle) (some bm)
      (some ⟨n1Center.x + control1Offset.x, n1Center.y - control1Offset.y⟩,
       some ⟨n2Center.x + control2Offset.x, n2Center.y - control2Offset.y⟩)
    else (none, none)
  | _, _ => (none, none)

/-! ## Claim C6: bend control points -/

/-- C6: when `bendDirection` and `bendMagnitude` are both truthy, the two
control points are the anchors offset by the polar vector of the
normalized rotated angles — x added, y subtracted — where each normalized
angle lies in `(-π, π]` and differs from the raw rotated angle by an
integer multiple of `2π` (the effect of the repeated ±2π loops); when the
bend parameters are not both truthy, both control points are absent. -/
theorem c6_bend_control_points (n1C n2C : PointR) (bd bm : Option ℝ) :
    (∀ d m : ℝ, bd = some d → bm = some m → d ≠ 0 → m ≠ 0 →
      (bendControlPoints n1C n2C bd bm =
        (some ⟨n1C.x + m * Real.cos (normalizeAngle
                (atan2 (n1C.y - n2C.y) (n2C.x - n1C.x) + deg2rad d)),
              n1C.y - m * Real.sin (normalizeAngle
                (atan2 (n1C.y - n2C.y) (n2C.x - n1C.x) + deg2rad d))⟩,
         some ⟨n2C.x + m * Real.cos (normalizeAngle
                (atan2 (n2C.y - n1C.y) (n1C.x - n2C.x) - deg2rad d)),
              n2C.y - m * Real.sin (normalizeAngle
                (atan2 (n2C.y - n1C.y) (n1C.x - n2C.x) - deg2rad d))⟩))
      ∧ (-Real.pi < normalizeAngle (atan2 (n1C.y - n2C.y) (n2C.x - n1C.x) + deg2rad d)
          ∧ normalizeAngle (atan2 (n1C.y - n2C.y) (n2C.x - n1C.x) + deg2rad d) ≤ Real.pi)
      ∧ (∃ k : ℤ, normalizeAngle (atan2 (n1C.y - n2C.y) (n2C.x - n1C.x) + deg2rad d)
          = atan2 (n1C.y - n2C.y) (n2C.x - n1C.x) + deg2rad d + 2 * Real.pi * k)
      ∧ (-Real.pi < normalizeAngle (atan2 (n2C.y - n1C.y) (n1C.x - n2C.x) - deg2rad d)
          ∧ normalizeAngle (atan2 (n2C.y - n1C.y) (n1C.x - n2C.x) - deg2rad d) ≤ Real.pi)
      ∧ (∃ k : ℤ, normalizeAngle (atan2 (n2C.y - n1C.y) (n1C.x - n2C.x) - deg2rad d)
          = atan2 (n2C.y - n1C.y) (n1C.x - n2C.x) - deg2rad d + 2 * Real.pi * k))
    ∧ (¬(truthyNum bd ∧ truthyNum bm) → bendControlPoints n1C n2C bd bm = (none, none)) := by
  constructor
  · intro d m hbd hbm hd hm
    subst hbd
    subst hbm
    refine ⟨?_, normalizeAngle_mem _, normalizeAngle_eq_add_int_mul _,
      normalizeAngle_mem _, normalizeAngle_eq_add_int_mul _⟩
    simp only [bendControlPoints, polarToCartesian, Option.getD_some]
    rw [if_pos ⟨hd, hm⟩]
  · intro h
    match bd, bm with
    | none, none => rfl
    | none, some m => rfl
    | some d, none => rfl
    | some d, some m =>
      have hng : ¬(d ≠ 0 ∧ m ≠ 0) := by
        intro hc
        exact h ⟨hc.1, hc.2⟩
      simp only [bendControlPoints]
      rw [if_neg hng]

/-- Witness for C6: nodes at (0,0) and (10,0), bend direction 90 degrees,
magnitude 5; the normalized bent angle lies in `(-π, π]`. -/
theorem c6_bend_control_points_witness :
    ((90 : ℝ) ≠ 0) ∧ ((5 : ℝ) ≠ 0)
    ∧ (-Real.pi < normalizeAngle
        (atan2 ((PointR.mk 0 0).y - (PointR.mk 10 0).y)
          ((PointR.mk 10 0).x - (PointR.mk 0 0).x) + deg2rad 90)
      ∧ normalizeAngle
        (atan2 ((PointR.mk 0 0).y - (PointR.mk 10 0).y)
          ((PointR.mk 10 0).x - (PointR.mk 0 0).x) + deg2rad 90) ≤ Real.pi) := by
  refine ⟨by norm_num, by norm_num, ?_⟩
  exact ((c6_bend_control_points ⟨0, 0⟩ ⟨10, 0⟩ (some 90) (some 5)).1 90 5 rfl rfl
    (by norm_num) (by norm_num)).2.1
